import Mathlib

/-!
Verification development for the red-dwarf-democracy clustering pipeline.

The definitions below shallowly embed the two orchestration modules of the
repository, `reddwarf/cluster.py` (the `KMeansPolis` estimator with its
custom `_fit` loop) and `reddwarf/demdis.py` (`remap_vote_values`,
`run_clustering` and its inner `build_centers`).  Numeric data is embedded
over `ℚ`; Euclidean comparisons (`np.linalg.norm(...) < tol`) are expressed
by the equivalent squared-distance comparisons so that everything stays in
the rationals and remains executable.

The matrix/PCA/search utilities (`reddwarf.utils`) and the result type
declarations (`reddwarf.types`) are part of the repository but are not under
`src/`; definitions for them are modelled from the specification and carry a
doc comment starting with `Modelled from the spec:`.
-/

namespace RedDwarf

/-- A point: one row of the data matrix handed to the estimator. -/
abbrev Pt := List ℚ

/-- Squared Euclidean distance between two points (componentwise over the
common prefix, as `numpy` subtraction requires equal shapes anyway). -/
def sqDist (a b : Pt) : ℚ :=
  ((List.zip a b).map (fun uv => (uv.1 - uv.2) * (uv.1 - uv.2))).sum

/-- Embeds `np.all(np.linalg.norm(new_centers - old_centers, axis=1) < tol_centers)`.
Over `ℚ` the comparison `‖d‖ < tol` is expressed without square roots as
`0 ≤ tol ∧ ‖d‖² < tol²`, which is equivalent for every `tol`. -/
def shiftsAllLt (newC oldC : List Pt) (tol : ℚ) : Bool :=
  (List.zip newC oldC).all
    (fun cc => decide (0 ≤ tol) && decide (sqDist cc.1 cc.2 < tol * tol))

/-- The triple returned by one bounded single-iteration k-means call
(`labels, new_centers, inertia` in `KMeansPolis._fit`). -/
structure LloydOut where
  labels : List Nat
  centers : List Pt
  inertia : ℚ
deriving Repr, DecidableEq

/-- Terminal state of the `_fit` loop: the loop either breaks on the center
movement test (converged) or runs out of iterations (exhausted). -/
inductive FitStatus where
  | converged
  | exhausted
deriving Repr, DecidableEq

/-- The state `_fit` stores on `self` when it returns: `n_iter_`, `labels_`,
`cluster_centers_`, `inertia_` (the latter starts out as Python `None`,
hence the `Option`), plus the terminal status. -/
structure FitResult where
  status : FitStatus
  nIter : Nat
  labels : List Nat
  centers : List Pt
  inertia : Option ℚ
deriving Repr, DecidableEq

/-- The break test of the `_fit` loop: skipped while `old_centers is None`
(first iteration), otherwise the center-movement comparison. -/
def stepConverged (old : Option (List Pt)) (newC : List Pt) (tol : ℚ) : Bool :=
  match old with
  | none => false
  | some oc => shiftsAllLt newC oc tol

/-- The body of `for i in range(self.max_iter)` in `KMeansPolis._fit`,
parameterised by the per-iteration output `outs i` of the inner
single-iteration k-means call.  `fuel` is the number of loop indices still
to run, `i` the current index, `old`/`best` the `old_centers`/`best_inertia`
locals.  On break the current iteration's `labels`/`new_centers` but the
previous iteration's `best_inertia` are stored, exactly as in the source
(the `best_inertia = inertia` line sits after the break). -/
def fitGo (outs : Nat → LloydOut) (tol : ℚ) :
    Nat → Nat → Option (List Pt) → Option ℚ → FitResult
  | 0, i, _, best => ⟨.exhausted, i, [], [], best⟩
  | fuel + 1, i, old, best =>
    if stepConverged old (outs i).centers tol then
      ⟨.converged, i + 1, (outs i).labels, (outs i).centers, best⟩
    else
      match fuel with
      | 0 => ⟨.exhausted, i + 1, (outs i).labels, (outs i).centers, some (outs i).inertia⟩
      | f + 1 => fitGo outs tol (f + 1) (i + 1) (some (outs i).centers) (some (outs i).inertia)

/-- `KMeansPolis._fit`, abstracted over the sequence of single-iteration
outputs.  With `max_iter = 0` the Python body never binds `labels` and
`new_centers` and the trailing reads raise `NameError`; that failure is the
`none` case. -/
def fitLoop (outs : Nat → LloydOut) (tol : ℚ) (maxIter : Nat) : Option FitResult :=
  if maxIter = 0 then none else some (fitGo outs tol maxIter 0 none none)

/-- Index search for the nearest center: carries the best (index, squared
distance) so far; strict `<` keeps the earliest index on ties, as
`np.argmin` does. -/
def nearestAux (x : Pt) : List Pt → Nat → Nat × ℚ → Nat × ℚ
  | [], _, best => best
  | c :: cs, j, best =>
    nearestAux x cs (j + 1) (if sqDist x c < best.2 then (j, sqDist x c) else best)

/-- Index of the nearest center to `x` (0 for an empty center list). -/
def nearestIdx (centers : List Pt) (x : Pt) : Nat :=
  match centers with
  | [] => 0
  | c :: cs => (nearestAux x cs 1 (0, sqDist x c)).1

/-- Componentwise sum of a list of points. -/
def vecSum : List Pt → Pt
  | [] => []
  | v :: vs => vs.foldl (fun acc w => List.zipWith (· + ·) acc w) v

/-- Componentwise mean of a list of points. -/
def meanPt (l : List Pt) : Pt :=
  (vecSum l).map (fun s => s / (l.length : ℚ))

/-- The points assigned to cluster `j` under nearest-center assignment. -/
def clusterMembers (X : List Pt) (centers : List Pt) (j : Nat) : List Pt :=
  X.filter (fun x => decide (nearestIdx centers x = j))

/-- Sum of squared distances from each point to the center its label points
at: the inertia of a (labels, centers) pair. -/
def ssq (X : List Pt) (labels : List Nat) (centers : List Pt) : ℚ :=
  ((List.zip X labels).map (fun xl => sqDist xl.1 (centers.getD xl.2 []))).sum

/-- Modelled from the spec: the call
`self._kmeans_single_lloyd(X, ..., self.init, ..., max_iter=1, ...)` runs
library code that is not part of this repository.  Following §4.6 it
performs one Lloyd iteration from the given centers: assign every point to
its nearest center (Euclidean distance, first index on ties), recompute
each cluster's center as the mean of its assigned points, freezing a
cluster that received no points at its previous value, and report the sum
of squared distances from the points to their assigned (recomputed)
centers as the inertia. -/
def lloydStep (X : List Pt) (centers : List Pt) : LloydOut :=
  let labels := X.map (nearestIdx centers)
  let newCenters := (List.range centers.length).map (fun j =>
    let members := clusterMembers X centers j
    if members.isEmpty then centers.getD j [] else meanPt members)
  { labels := labels, centers := newCenters, inertia := ssq X labels newCenters }

/-- `KMeansPolis._fit` on data `X` with initial centers `initCenters`: the
source passes the unchanged `self.init` (together with the other
iteration-independent arguments) to every single-iteration call, so every
iteration performs the same Lloyd step from the same initial centers. -/
def kmeansPolisFit (X : List Pt) (initCenters : List Pt) (tol : ℚ) (maxIter : Nat) :
    Option FitResult :=
  fitLoop (fun _ => lloydStep X initCenters) tol maxIter

/-- Default `tol_centers` of `KMeansPolis.__init__`. -/
def TOL_CENTERS_DEFAULT : ℚ := 1 / 100

/-- Default `max_iter` of `KMeansPolis.__init__`. -/
def MAX_ITER_DEFAULT : Nat := 20

/-! Analysis of the `_fit` loop. -/

/-- What `old_centers` holds when the loop body runs index `j`. -/
def prevCenters (outs : Nat → LloydOut) : Nat → Option (List Pt)
  | 0 => none
  | j + 1 => some (outs j).centers

/-- What `best_inertia` holds when the loop body runs index `j`. -/
def prevBest (outs : Nat → LloydOut) : Nat → Option ℚ
  | 0 => none
  | j + 1 => some (outs j).inertia

/-- The convergence test as evaluated at loop index `j`: it can only fire
from the second iteration on, and compares the centers of iteration `j`
with those of iteration `j - 1`. -/
def convAt (outs : Nat → LloydOut) (tol : ℚ) (j : Nat) : Prop :=
  1 ≤ j ∧ shiftsAllLt (outs j).centers (outs (j - 1)).centers tol = true

lemma fitGo_one (outs : Nat → LloydOut) (tol : ℚ) (i : Nat)
    (old : Option (List Pt)) (best : Option ℚ) :
    fitGo outs tol 1 i old best =
      if stepConverged old (outs i).centers tol then
        ⟨.converged, i + 1, (outs i).labels, (outs i).centers, best⟩
      else
        ⟨.exhausted, i + 1, (outs i).labels, (outs i).centers, some (outs i).inertia⟩ := rfl

lemma fitGo_succ2 (outs : Nat → LloydOut) (tol : ℚ) (f i : Nat)
    (old : Option (List Pt)) (best : Option ℚ) :
    fitGo outs tol (f + 2) i old best =
      if stepConverged old (outs i).centers tol then
        ⟨.converged, i + 1, (outs i).labels, (outs i).centers, best⟩
      else
        fitGo outs tol (f + 1) (i + 1) (some (outs i).centers) (some (outs i).inertia) := rfl

lemma stepConverged_prev (outs : Nat → LloydOut) (tol : ℚ) (i : Nat) :
    stepConverged (prevCenters outs i) (outs i).centers tol = true ↔ convAt outs tol i := by
  cases i with
  | zero => simp [stepConverged, prevCenters, convAt]
  | succ j => simp [stepConverged, prevCenters, convAt]

lemma fitGo_converged_iff (outs : Nat → LloydOut) (tol : ℚ) :
    ∀ fuel, 1 ≤ fuel → ∀ i,
      ((fitGo outs tol fuel i (prevCenters outs i) (prevBest outs i)).status = FitStatus.converged
        ↔ ∃ j, i ≤ j ∧ j < i + fuel ∧ convAt outs tol j)
      ∧ ((fitGo outs tol fuel i (prevCenters outs i) (prevBest outs i)).status = FitStatus.exhausted →
          (fitGo outs tol fuel i (prevCenters outs i) (prevBest outs i)).nIter = i + fuel) := by
  intro fuel
  induction fuel with
  | zero => intro h; exact absurd h (by omega)
  | succ f ih =>
    intro _ i
    by_cases hc : stepConverged (prevCenters outs i) (outs i).centers tol = true
    · have hgo : fitGo outs tol (f + 1) i (prevCenters outs i) (prevBest outs i)
          = ⟨.converged, i + 1, (outs i).labels, (outs i).centers, prevBest outs i⟩ := by
        cases f with
        | zero => rw [fitGo_one, if_pos hc]
        | succ g => rw [fitGo_succ2, if_pos hc]
      rw [hgo]
      refine ⟨⟨fun _ => ⟨i, le_refl i, by omega, (stepConverged_prev outs tol i).mp hc⟩,
        fun _ => rfl⟩, ?_⟩
      intro h
      exact nomatch h
    · have hcnot : ¬ convAt outs tol i := fun hca => hc ((stepConverged_prev outs tol i).mpr hca)
      cases f with
      | zero =>
        rw [fitGo_one, if_neg hc]
        refine ⟨?_, fun _ => rfl⟩
        constructor
        · intro h
          exact nomatch h
        · rintro ⟨j, hij, hjlt, hconv⟩
          have hji : j = i := by omega
          rw [hji] at hconv
          exact absurd hconv hcnot
      | succ g =>
        rw [fitGo_succ2, if_neg hc]
        have hrec := ih (by omega) (i + 1)
        simp only [prevCenters, prevBest] at hrec
        refine ⟨?_, ?_⟩
        · rw [hrec.1]
          constructor
          · rintro ⟨j, h1, h2, h3⟩
            exact ⟨j, by omega, by omega, h3⟩
          · rintro ⟨j, h1, h2, h3⟩
            have h4 : i + 1 ≤ j := by
              by_contra hno
              have hji : j = i := by omega
              rw [hji] at h3
              exact hcnot h3
            exact ⟨j, h4, by omega, h3⟩
        · intro h
          have hni := hrec.2 h
          rw [hni]
          omega

/-- C1: the `_fit` loop, run over any sequence of per-iteration outputs for
at least one iteration, terminates converged exactly when some iteration
after the first moves every center strictly less than `tol_centers` relative
to the previous iteration; otherwise it terminates exhausted with the
iteration count equal to `max_iter`, and no other stopping condition
exists. -/
theorem kmeans_fit_stopping_rule (outs : Nat → LloydOut) (tol : ℚ) (maxIter : Nat)
    (h : 1 ≤ maxIter) :
    ∃ r, fitLoop outs tol maxIter = some r
      ∧ (r.status = FitStatus.converged
          ↔ ∃ j, 1 ≤ j ∧ j < maxIter
              ∧ shiftsAllLt (outs j).centers (outs (j - 1)).centers tol = true)
      ∧ (r.status = FitStatus.exhausted → r.nIter = maxIter)
      ∧ (r.status = FitStatus.converged ∨ r.status = FitStatus.exhausted) := by
  have hmain := fitGo_converged_iff outs tol maxIter h 0
  simp only [prevCenters, prevBest] at hmain
  refine ⟨fitGo outs tol maxIter 0 none none, ?_, ?_, ?_, ?_⟩
  · unfold fitLoop
    rw [if_neg (by omega)]
  · rw [hmain.1]
    constructor
    · rintro ⟨j, _, h2, h3, h4⟩
      exact ⟨j, h3, by omega, h4⟩
    · rintro ⟨j, h1, h2, h3⟩
      exact ⟨j, by omega, by omega, h1, h3⟩
  · intro hs
    have := hmain.2 hs
    omega
  · cases hst : (fitGo outs tol maxIter 0 none none).status
    · exact Or.inl rfl
    · exact Or.inr rfl

/-- Witness for C1 at a concrete output sequence and `max_iter = 2`. -/
theorem kmeans_fit_stopping_rule_witness :
    1 ≤ 2 ∧ ∃ r, fitLoop (fun _ => LloydOut.mk [0] [[0, 0]] 0) (1 / 100) 2 = some r
      ∧ (r.status = FitStatus.converged
          ↔ ∃ j, 1 ≤ j ∧ j < 2
              ∧ shiftsAllLt ((fun _ => LloydOut.mk [0] [[0, 0]] 0) j).centers
                  ((fun _ => LloydOut.mk [0] [[0, 0]] 0) (j - 1)).centers (1 / 100) = true)
      ∧ (r.status = FitStatus.exhausted → r.nIter = 2)
      ∧ (r.status = FitStatus.converged ∨ r.status = FitStatus.exhausted) :=
  ⟨by omega, kmeans_fit_stopping_rule (fun _ => LloydOut.mk [0] [[0, 0]] 0) (1 / 100) 2 (by omega)⟩

lemma fitGo_const_fields (out : LloydOut) (tol : ℚ) :
    ∀ fuel i (old : Option (List Pt)) (best : Option ℚ), 1 ≤ fuel →
      ((old = none ∧ best = none) ∨ (old = some out.centers ∧ best = some out.inertia)) →
      ((fitGo (fun _ => out) tol fuel i old best).labels = out.labels
        ∧ (fitGo (fun _ => out) tol fuel i old best).centers = out.centers
        ∧ (fitGo (fun _ => out) tol fuel i old best).inertia = some out.inertia) := by
  intro fuel
  induction fuel with
  | zero => intro i old best h; exact absurd h (by omega)
  | succ f ih =>
    intro i old best _ hob
    rcases hob with ⟨ho, hb⟩ | ⟨ho, hb⟩ <;> subst ho <;> subst hb
    · cases f with
      | zero =>
        rw [fitGo_one, if_neg (by simp [stepConverged])]
        exact ⟨rfl, rfl, rfl⟩
      | succ g =>
        rw [fitGo_succ2, if_neg (by simp [stepConverged])]
        exact ih (i + 1) _ _ (by omega) (Or.inr ⟨rfl, rfl⟩)
    · cases f with
      | zero =>
        rw [fitGo_one]
        by_cases hc : stepConverged (some out.centers) ((fun _ => out) i).centers tol = true
        · rw [if_pos hc]
          exact ⟨rfl, rfl, rfl⟩
        · rw [if_neg hc]
          exact ⟨rfl, rfl, rfl⟩
      | succ g =>
        rw [fitGo_succ2]
        by_cases hc : stepConverged (some out.centers) ((fun _ => out) i).centers tol = true
        · rw [if_pos hc]
          exact ⟨rfl, rfl, rfl⟩
        · rw [if_neg hc]
          exact ih (i + 1) _ _ (by omega) (Or.inr ⟨rfl, rfl⟩)

/-- C4: whenever `_fit` returns (converged or exhausted alike), the stored
`inertia_` is the sum of squared distances from each input point to the
center selected by the returned `labels_` within the returned
`cluster_centers_`. -/
theorem kmeans_fit_inertia_matches_result (X initCenters : List Pt) (tol : ℚ)
    (maxIter : Nat) (h : 1 ≤ maxIter) :
    ∃ r, kmeansPolisFit X initCenters tol maxIter = some r
      ∧ r.inertia = some (ssq X r.labels r.centers) := by
  refine ⟨fitGo (fun _ => lloydStep X initCenters) tol maxIter 0 none none, ?_, ?_⟩
  · unfold kmeansPolisFit fitLoop
    rw [if_neg (by omega)]
  · obtain ⟨hl, hcent, hin⟩ := fitGo_const_fields (lloydStep X initCenters) tol maxIter 0
      none none h (Or.inl ⟨rfl, rfl⟩)
    rw [hl, hcent, hin]
    rfl

/-- Witness for C4 at a concrete input. -/
theorem kmeans_fit_inertia_matches_result_witness :
    1 ≤ 20 ∧ ∃ r, kmeansPolisFit [[0], [2]] [[0], [2]] (1 / 100) 20 = some r
      ∧ r.inertia = some (ssq [[0], [2]] r.labels r.centers) :=
  ⟨by omega, kmeans_fit_inertia_matches_result [[0], [2]] [[0], [2]] (1 / 100) 20 (by omega)⟩

/-- C2 (the code): on `X = {0, 5, 6}` (one-dimensional) with `k = 2`,
initial centers `{4, 7}` and the default `tol_centers`/`max_iter`, `_fit`
stops after two iterations with centers `(2.5, 6)` and labels `[0,0,1]`,
because every iteration restarts the Lloyd step from `self.init` and the
two identical restarts move no center.  Under the claimed semantics the
second iteration would instead assign points against the centers
`(2.5, 6)` produced by iteration one, which moves them to `(0, 5.5)` — a
shift far above the tolerance, so the run would not have converged there. -/
theorem kmeans_fit_restarts_from_init :
    kmeansPolisFit [[0], [5], [6]] [[4], [7]] (1 / 100) 20
        = some ⟨FitStatus.converged, 2, [0, 0, 1], [[5 / 2], [6]], some (25 / 2)⟩
      ∧ (lloydStep [[0], [5], [6]] [[5 / 2], [6]]).centers = [[0], [11 / 2]]
      ∧ shiftsAllLt (lloydStep [[0], [5], [6]] [[5 / 2], [6]]).centers [[5 / 2], [6]]
          (1 / 100) = false := by
  with_unfolding_all decide

/-! Identical-point inputs (claim C6). -/

lemma zip_self {α : Type} (l : List α) : List.zip l l = l.map (fun x => (x, x)) := by
  induction l with
  | nil => rfl
  | cons a t ih => simp [ih]

lemma sqDist_self (x : Pt) : sqDist x x = 0 := by
  unfold sqDist
  rw [zip_self, List.map_map]
  apply List.sum_eq_zero
  intro q hq
  obtain ⟨u, hu, rfl⟩ := List.mem_map.mp hq
  simp

lemma shiftsAllLt_self (c : List Pt) (tol : ℚ) (htol : 0 < tol) :
    shiftsAllLt c c tol = true := by
  unfold shiftsAllLt
  rw [zip_self, List.all_eq_true]
  intro x hx
  obtain ⟨u, hu, rfl⟩ := List.mem_map.mp hx
  simp [sqDist_self, htol.le, mul_pos htol htol]

lemma fitGo_const_converges (out : LloydOut) (tol : ℚ) (htol : 0 < tol)
    (maxIter : Nat) (h2 : 2 ≤ maxIter) :
    fitGo (fun _ => out) tol maxIter 0 none none
      = ⟨FitStatus.converged, 2, out.labels, out.centers, some out.inertia⟩ := by
  obtain ⟨f, rfl⟩ : ∃ f, maxIter = f + 2 := ⟨maxIter - 2, by omega⟩
  rw [fitGo_succ2, if_neg (by simp [stepConverged])]
  have hsc : stepConverged (some ((fun _ => out) 0).centers) ((fun _ => out) 1).centers tol
      = true := by
    simp only [stepConverged]
    exact shiftsAllLt_self out.centers tol htol
  cases f with
  | zero => rw [fitGo_one, if_pos hsc]
  | succ g => rw [fitGo_succ2, if_pos hsc]

lemma zipWith_add_map_mul (k : ℚ) : ∀ (v : List ℚ),
    List.zipWith (· + ·) (v.map (fun u => u * k)) v = v.map (fun u => u * (k + 1)) := by
  intro v
  induction v with
  | nil => rfl
  | cons a t ih =>
    simp only [List.map_cons, List.zipWith_cons_cons]
    rw [ih]
    congr 1
    ring

lemma foldl_add_const (p : Pt) : ∀ (n : Nat) (k : ℚ),
    List.foldl (fun acc w => List.zipWith (· + ·) acc w)
        (p.map (fun u => u * k)) (List.replicate n p)
      = p.map (fun u => u * (k + n)) := by
  intro n
  induction n with
  | zero =>
    intro k
    simp
  | succ m ih =>
    intro k
    rw [List.replicate_succ, List.foldl_cons, zipWith_add_map_mul, ih (k + 1)]
    congr 1
    funext u
    push_cast
    ring

lemma vecSum_const (p : Pt) (n : Nat) :
    vecSum (List.replicate (n + 1) p) = p.map (fun u => u * (n + 1 : ℚ)) := by
  have h1 : p.map (fun u => u * (1 : ℚ)) = p := by simp
  rw [List.replicate_succ]
  simp only [vecSum]
  have h2 := foldl_add_const p n 1
  rw [h1] at h2
  rw [h2]
  congr 1
  funext u
  ring

lemma meanPt_const (p : Pt) (l : List Pt) (hl : l ≠ []) (hall : ∀ x ∈ l, x = p) :
    meanPt l = p := by
  obtain ⟨n, hn⟩ : ∃ n, l.length = n + 1 := by
    refine ⟨l.length - 1, ?_⟩
    have : 0 < l.length := List.length_pos.mpr hl
    omega
  have hrep : l = List.replicate (n + 1) p := by
    rw [← hn]
    exact List.eq_replicate_of_mem hall
  rw [hrep]
  unfold meanPt
  rw [vecSum_const, List.map_map, List.length_replicate]
  have hnz : ((n : ℚ) + 1) ≠ 0 := by positivity
  have : (fun u : ℚ => u * ((n : ℚ) + 1) / ((n + 1 : Nat) : ℚ)) = fun u : ℚ => u := by
    funext u
    push_cast
    field_simp
  calc (List.map (fun u => u * ((n : ℚ) + 1) / ((n + 1 : Nat) : ℚ)) p)
      = List.map (fun u : ℚ => u) p := by rw [this]
    _ = p := List.map_id p

lemma nearestAux_lt (x : Pt) : ∀ (cs : List Pt) (j : Nat) (best : Nat × ℚ),
    best.1 < j → (nearestAux x cs j best).1 < j + cs.length := by
  intro cs
  induction cs with
  | nil =>
    intro j best h
    simpa [nearestAux] using h
  | cons c t ih =>
    intro j best h
    simp only [nearestAux]
    have hb : (if sqDist x c < best.2 then (j, sqDist x c) else best).1 < j + 1 := by
      split
      · simp
      · omega
    have := ih (j + 1) _ hb
    simp only [List.length_cons]
    omega

lemma nearestIdx_lt (centers : List Pt) (x : Pt) (h : centers ≠ []) :
    nearestIdx centers x < centers.length := by
  cases centers with
  | nil => exact absurd rfl h
  | cons c cs =>
    have := nearestAux_lt x cs 1 (0, sqDist x c) (by omega)
    simp only [nearestIdx, List.length_cons]
    omega

lemma lloydStep_center_getD (X centers : List Pt) (j : Nat) (hj : j < centers.length) :
    (lloydStep X centers).centers.getD j []
      = (if (clusterMembers X centers j).isEmpty then centers.getD j []
         else meanPt (clusterMembers X centers j)) := by
  have hshow : (lloydStep X centers).centers
      = (List.range centers.length).map (fun j =>
          if (clusterMembers X centers j).isEmpty then centers.getD j []
          else meanPt (clusterMembers X centers j)) := rfl
  rw [hshow]
  rw [List.getD_eq_getElem _ _ (by simpa using hj)]
  simp

/-- C6 (amended): on a nonempty input whose points are all equal to `p`,
`_fit` converges after exactly two iterations (the movement test needs a
previous iteration to compare against); the cluster that receives the
points has center `p`, and a cluster that receives no points keeps its
initial center (§4.6 freeze rule). -/
theorem kmeans_fit_identical_points (X : List Pt) (p : Pt) (initC : List Pt) (tol : ℚ)
    (maxIter : Nat) (hX : X ≠ []) (hall : ∀ x ∈ X, x = p) (hinit : initC ≠ [])
    (htol : 0 < tol) (hmi : 2 ≤ maxIter) :
    ∃ r, kmeansPolisFit X initC tol maxIter = some r
      ∧ r.status = FitStatus.converged
      ∧ r.nIter = 2
      ∧ r.centers.getD (nearestIdx initC p) [] = p
      ∧ ∀ j, j < initC.length → j ≠ nearestIdx initC p →
          r.centers.getD j [] = initC.getD j [] := by
  have hfit : kmeansPolisFit X initC tol maxIter
      = some ⟨FitStatus.converged, 2, (lloydStep X initC).labels,
          (lloydStep X initC).centers, some (lloydStep X initC).inertia⟩ := by
    unfold kmeansPolisFit fitLoop
    rw [if_neg (by omega), fitGo_const_converges (lloydStep X initC) tol htol maxIter hmi]
  refine ⟨_, hfit, rfl, rfl, ?_, ?_⟩
  · have hjlt := nearestIdx_lt initC p hinit
    rw [lloydStep_center_getD X initC _ hjlt]
    have hmem : clusterMembers X initC (nearestIdx initC p) = X := by
      unfold clusterMembers
      apply List.filter_eq_self.mpr
      intro x hx
      rw [hall x hx]
      simp
    rw [hmem, if_neg (by simpa [List.isEmpty_iff] using hX)]
    exact meanPt_const p X hX hall
  · intro j hj hne
    rw [lloydStep_center_getD X initC j hj]
    have hmem : clusterMembers X initC j = [] := by
      unfold clusterMembers
      rw [List.filter_eq_nil_iff]
      intro x hx
      rw [hall x hx]
      simp only [decide_eq_true_eq]
      exact fun hh => hne hh.symm
    rw [hmem]
    rfl

/-- Counterexample for C6 as stated: with both points at the origin, one
cluster and initial center `(1,1)`, the run converges with `n_iter_ = 2`,
not after exactly one iteration. -/
theorem kmeans_fit_identical_points_cex :
    kmeansPolisFit [[0, 0], [0, 0]] [[1, 1]] (1 / 100) 20
      = some ⟨FitStatus.converged, 2, [0, 0], [[0, 0]], some 0⟩
    ∧ (2 : Nat) ≠ 1 := by
  with_unfolding_all decide

/-- Witness for C6 (amended) at a concrete input. -/
theorem kmeans_fit_identical_points_witness :
    ([[3, 3], [3, 3], [3, 3]] : List Pt) ≠ []
    ∧ (∀ x ∈ ([[3, 3], [3, 3], [3, 3]] : List Pt), x = [3, 3])
    ∧ ([[0, 0], [9, 9]] : List Pt) ≠ []
    ∧ (0 : ℚ) < 1 / 100
    ∧ 2 ≤ 20
    ∧ ∃ r, kmeansPolisFit [[3, 3], [3, 3], [3, 3]] [[0, 0], [9, 9]] (1 / 100) 20 = some r
        ∧ r.status = FitStatus.converged
        ∧ r.nIter = 2
        ∧ r.centers.getD (nearestIdx [[0, 0], [9, 9]] [3, 3]) [] = [3, 3]
        ∧ ∀ j, j < ([[0, 0], [9, 9]] : List Pt).length →
            j ≠ nearestIdx [[0, 0], [9, 9]] [3, 3] →
            r.centers.getD j [] = ([[0, 0], [9, 9]] : List Pt).getD j [] :=
  ⟨by with_unfolding_all decide, by with_unfolding_all decide, by with_unfolding_all decide,
   by with_unfolding_all decide, by omega,
   kmeans_fit_identical_points [[3, 3], [3, 3], [3, 3]] [3, 3] [[0, 0], [9, 9]] (1 / 100) 20
     (by with_unfolding_all decide) (by with_unfolding_all decide)
     (by with_unfolding_all decide) (by with_unfolding_all decide) (by omega)⟩

/-!  Embedding of `reddwarf/demdis.py`. -/

/-- A raw vote record: a Python dict from field names to integer values
(participant ids, statement ids, vote values and epoch-millisecond
timestamps are all integers).  Represented as an association list in
insertion order, the way CPython dicts behave. -/
abbrev VRec := List (String × Int)

/-- `m.get(k)` on a Python dict represented as an association list with
unique keys: the first (hence only) binding of `k`. -/
def alistGet {α β : Type} [DecidableEq α] : List (α × β) → α → Option β
  | [], _ => none
  | p :: t, k => if p.1 = k then some p.2 else alistGet t k

/-- `d[k] = v` on a Python dict: overwrite in place if the key is present
(keeping its position), append otherwise. -/
def pyInsert {α β : Type} [DecidableEq α] (d : List (α × β)) (k : α) (v : β) :
    List (α × β) :=
  if d.any (fun p => decide (p.1 = k)) then
    d.map (fun p => if p.1 = k then (k, v) else p)
  else
    d ++ [(k, v)]

/-- A Python dict comprehension over a list of (key, value) pairs: build
the dict left to right, later pairs overwriting earlier ones with the same
key. -/
def dictComp {α β : Type} [DecidableEq α] (entries : List (α × β)) : List (α × β) :=
  entries.foldl (fun d kv => pyInsert d kv.1 kv.2) []

/-- `key_mapping.get(k, k)` in `remap_vote_values`. -/
def mappedKey (keyMapping : List (String × String)) (k : String) : String :=
  (alistGet keyMapping k).getD k

/-- `remap_vote_values(votes, value_mapping, key_mapping={})`: first a dict
comprehension renaming each key through `key_mapping` (unmapped keys kept),
then a dict comprehension applying `value_mapping` to the value of the
`"vote"` field only (unmapped values kept). -/
def remapVoteValues (votes : List VRec) (valueMapping : List (Int × Int))
    (keyMapping : List (String × String) := []) : List VRec :=
  let rekeyedVotes := votes.map (fun vote =>
    dictComp (vote.map (fun kv => (mappedKey keyMapping kv.1, kv.2))))
  rekeyedVotes.map (fun vote =>
    dictComp (vote.map (fun kv =>
      (kv.1, if kv.1 = "vote" then (alistGet valueMapping kv.2).getD kv.2 else kv.2))))

/-- Modelled from the spec: the `DemDisVoteValueEnum` members (module
`reddwarf.types.demdis`, not under `src/`) are a platform-specific
three-way agree/skip/disagree enumeration; their concrete values are
represented here by three distinct integers. -/
def DEMDIS_AGREE : Int := 10

/-- Modelled from the spec: see `DEMDIS_AGREE`. -/
def DEMDIS_SKIP : Int := 20

/-- Modelled from the spec: see `DEMDIS_AGREE`. -/
def DEMDIS_DISAGREE : Int := 30

/-- Modelled from the spec: `BaseVoteValueEnum.UP` of the canonical
`{-1, 0, 1}` vote-value space. -/
def BASE_UP : Int := 1

/-- Modelled from the spec: `BaseVoteValueEnum.NEUTRAL`. -/
def BASE_NEUTRAL : Int := 0

/-- Modelled from the spec: `BaseVoteValueEnum.DOWN`. -/
def BASE_DOWN : Int := -1

/-- The `DEMDIS_VOTE_KEY_MAPPING` table of `demdis.py`. -/
def DEMDIS_VOTE_KEY_MAPPING : List (String × String) :=
  [("voted_by_participant_id", "participant_id"), ("value", "vote")]

/-- The `DEMDIS_VOTE_VALUE_MAPPING` table of `demdis.py`. -/
def DEMDIS_VOTE_VALUE_MAPPING : List (Int × Int) :=
  [(DEMDIS_AGREE, BASE_UP), (DEMDIS_SKIP, BASE_NEUTRAL), (DEMDIS_DISAGREE, BASE_DOWN)]

/-- The vote list `run_clustering` works with: the input as given when
`skip_remap` is set, the remapped input otherwise. -/
def normalizedVotes (skipRemap : Bool) (votes : List VRec) : List VRec :=
  if skipRemap then votes
  else remapVoteValues votes DEMDIS_VOTE_VALUE_MAPPING DEMDIS_VOTE_KEY_MAPPING

/-- `vote[k]` for the fields the pipeline reads.  Python raises `KeyError`
on a missing field; no claim concerns malformed records, so the embedding
totalises the access with default `0`. -/
def getField (rec : VRec) (k : String) : Int :=
  (alistGet rec k).getD 0

/-- The `last_vote_timestamp` fold of `run_clustering` (starts at 0, keeps
the largest `modified` value seen). -/
def lastVoteTimestamp (votes : List VRec) : Int :=
  votes.foldl (fun acc rec => if getField rec "modified" > acc then getField rec "modified" else acc) 0

/-- A structurally typed vote record, extracted from a raw dict. -/
structure VoteRec where
  pid : Int
  sid : Int
  vote : Int
  modified : Int
deriving Repr, DecidableEq

/-- Field extraction for the matrix builder. -/
def toVoteRec (rec : VRec) : VoteRec :=
  ⟨getField rec "participant_id", getField rec "statement_id",
   getField rec "vote", getField rec "modified"⟩

/-- Distinct values of a list, in ascending order (pandas indexes/columns
sort their distinct labels). -/
def dedupSorted {α : Type} [DecidableEq α] [LinearOrder α] (l : List α) : List α :=
  (l.dedup).insertionSort (· ≤ ·)

/-- The effective vote of participant `p` on statement `s`: the last
matching record in input order ("last record wins", §4.2), or unset. -/
def lastVoteFor (votes : List VoteRec) (p s : Int) : Option Int :=
  ((votes.filter (fun v => decide (v.pid = p) && decide (v.sid = s))).getLast?).map VoteRec.vote

/-- A participant × statement vote matrix: the statement axis plus one row
of optional cells (aligned with `sids`) per participant. -/
structure VoteMatrix where
  sids : List Int
  rows : List (Int × List (Option Int))
deriving Repr, DecidableEq

/-- Modelled from the spec: `utils.generate_raw_matrix` is not under
`src/`.  Per §4.2: one row per distinct participant id, one column per
distinct statement id, cell = the last matching vote in input order,
absent pairs unset. -/
def generateRawMatrix (votes : List VoteRec) : VoteMatrix :=
  let pids := dedupSorted (votes.map VoteRec.pid)
  let sids := dedupSorted (votes.map VoteRec.sid)
  { sids := sids,
    rows := pids.map (fun p => (p, sids.map (fun s => lastVoteFor votes p s))) }

/-- Number of set (non-unset) cells in a row. -/
def rowVoteCount (cells : List (Option Int)) : Nat :=
  cells.countP Option.isSome

/-- `raw_vote_matrix.count().sum()`: total number of set cells. -/
def matrixVoteCount (m : VoteMatrix) : Nat :=
  (m.rows.map (fun r => rowVoteCount r.2)).sum

/-- Modelled from the spec: `utils.filter_matrix` is not under `src/`.
Per §4.3: keep the participant rows with at least `min_user_vote_threshold`
set cells; the statement axis is unchanged. -/
def filterMatrix (minUserVoteThreshold : Nat) (m : VoteMatrix) : VoteMatrix :=
  { sids := m.sids,
    rows := m.rows.filter (fun r => decide (minUserVoteThreshold ≤ rowVoteCount r.2)) }

/-- `DEFAULT_MIN_USER_VOTE_THRESHOLD` of `demdis.py`. -/
def DEFAULT_MIN_USER_VOTE_THRESHOLD : Nat := 7

/-- `DEFAULT_MAX_CLUSTERS` of `demdis.py`. -/
def DEFAULT_MAX_CLUSTERS : Nat := 5

/-- `DEFAULT_CLUSTER_NAMES` of `demdis.py`. -/
def DEFAULT_CLUSTER_NAMES : List String := ["A", "B", "C", "D", "E"]

/-- Modelled from the spec: `utils.run_pca` is not under `src/`.  §4.4 only
fixes that it is a linear 2-component projection producing one (x, y) per
retained participant; the concrete decomposition is numeric and is
represented by a fixed linear projection (row sum, index-weighted row sum,
unset as 0).  No claim below depends on the coordinate values. -/
def runPca (m : VoteMatrix) : List (ℚ × ℚ) :=
  m.rows.map (fun r =>
    (((r.2.map (fun c => ((c.getD 0 : Int) : ℚ))).sum),
     ((List.range r.2.length).map
        (fun j => ((j : Nat) : ℚ) * (((r.2.getD (j : Nat) none).getD 0 : Int) : ℚ))).sum))

/-- Modelled from the spec: `utils.scale_projected_data` is not under
`src/`.  §4.5 requires a monotonic magnitude-only rescaling; it is
represented with factor 1.  No claim below depends on the coordinates. -/
def scaleProjectedData (proj : List (ℚ × ℚ)) (_m : VoteMatrix) : List (ℚ × ℚ) :=
  proj.map (fun p => (p.1, p.2))

/-- Modelled from the spec: the default center-initialization heuristic of
§4.6 ("the underlying algorithm's default initialization heuristic") is
random in the library; it is represented deterministically by the first
`k` points, padded with the origin. -/
def defaultInit (points : List Pt) (k : Nat) : List Pt :=
  points.take k ++ List.replicate (k - points.length) [0, 0]

/-- Modelled from the spec: `utils.run_kmeans` is not under `src/`; it runs
the bounded-convergence estimator with its defaults on the projected
points, seeded with the caller-supplied centers when present, and returns
the labels and centers. -/
def runKmeans (points : List Pt) (k : Nat) (initC : Option (List Pt)) :
    List Nat × List Pt :=
  let init := initC.getD (defaultInit points k)
  let r := (kmeansPolisFit points init TOL_CENTERS_DEFAULT MAX_ITER_DEFAULT).getD
    ⟨.exhausted, 0, [], init, none⟩
  (r.labels, r.centers)

/-- Modelled from the spec: `utils.find_optimal_k` is not under `src/`.
Per §4.7: run the estimator once per candidate count `2..max_group_count`,
each run independent, and select the best run under a model-selection
criterion with a deterministic tie-break; the open criterion choice is
represented as lowest inertia, smallest `k` among ties.  Returns
(k, score, labels, centers). -/
def findOptimalK (points : List Pt) (maxGroupCount : Nat) (initC : Option (List Pt)) :
    Nat × ℚ × List Nat × List Pt :=
  let runs := (List.range' 2 (maxGroupCount - 1)).map (fun k =>
    let init := initC.getD (defaultInit points k)
    let r := (kmeansPolisFit points init TOL_CENTERS_DEFAULT MAX_ITER_DEFAULT).getD
      ⟨.exhausted, 0, [], init, none⟩
    (k, r.inertia.getD 0, r.labels, r.centers))
  match runs with
  | [] => (0, 0, [], [])
  | r :: rs => rs.foldl (fun best c => if c.2.1 < best.2.1 then c else best) r

/-- One entry of a center's `participants` list. -/
structure ParticipantOut where
  pid : Int
  clusterCenterName : String
  x : ℚ
  y : ℚ
deriving Repr, DecidableEq

/-- One entry of a center's `statements` list. -/
structure StatementOut where
  statementId : Int
  clusterCenterName : String
  agreementCount : Nat
  disagreementCount : Nat
  skipCount : Nat
  unseenCount : Nat
  agreementPercentage : ℚ
  clusterDefiningPosCoefficient : ℚ
  clusterDefiningNegCoefficient : ℚ
  clusterDefiningSkipCoefficient : ℚ
deriving Repr, DecidableEq

/-- One entry of the result's `centers` list. -/
structure CenterOut where
  name : String
  centerX : ℚ
  centerY : ℚ
  participantCount : Nat
  participants : List ParticipantOut
  statements : List StatementOut
deriving Repr, DecidableEq

/-- One entry of the result's `statement_metrics` list (placeholders). -/
structure StatementMetric where
  statementId : Int
  meanAgreementPercentage : ℚ
  consensusPoints : Nat
  polarizationMeasurement : ℚ
deriving Repr, DecidableEq

/-- The `ClusteringResult` dict.  Its schema declares `last_vote_at`
nullable; the code always stores `datetime.fromtimestamp(ts / 1000)`, a
calendar rendering of the raw epoch-millisecond value kept here. -/
structure ClusteringResult where
  participantCount : Nat
  participantsClustered : Nat
  voteCount : Nat
  statementCount : Nat
  lastVoteAt : Option Int
  statementMetrics : List StatementMetric
  centers : List CenterOut
deriving Repr, DecidableEq

/-- One row of `merged_df`: projected coordinates, assigned cluster and
the participant's filtered-matrix row. -/
structure MergedRow where
  pid : Int
  x : ℚ
  y : ℚ
  cluster : Nat
  cells : List (Option Int)
deriving Repr, DecidableEq

/-- `group_df[statement_id]` for the column at position `j`. -/
def cellAt (r : MergedRow) (j : Nat) : Option Int :=
  r.cells.getD j none

/-- One entry of the `statements` comprehension in `build_centers`. -/
def mkStatementOut (group : List MergedRow) (cname : String) (j : Nat) (sid : Int) :
    StatementOut :=
  let agreement := group.countP (fun r => decide (cellAt r j = some 1))
  { statementId := sid,
    clusterCenterName := cname,
    agreementCount := agreement,
    disagreementCount := group.countP (fun r => decide (cellAt r j = some (-1))),
    skipCount := group.countP (fun r => decide (cellAt r j = some 0)),
    unseenCount := group.countP (fun r => decide (cellAt r j = none)),
    agreementPercentage := ((agreement : ℚ) / (group.length : ℚ)) * 100,
    clusterDefiningPosCoefficient := 0,
    clusterDefiningNegCoefficient := 0,
    clusterDefiningSkipCoefficient := 0 }

/-- One entry of the `centers` comprehension in `build_centers`.
`DEFAULT_CLUSTER_NAMES[cluster_id]` is totalised with `getD` (the Python
raises `IndexError` past five clusters; no claim concerns that). -/
def mkCenterOut (clusterCenters : List Pt) (sids : List Int) (cid : Nat)
    (group : List MergedRow) : CenterOut :=
  let cname := DEFAULT_CLUSTER_NAMES.getD cid ""
  { name := cname,
    centerX := (clusterCenters.getD cid []).getD 0 0,
    centerY := (clusterCenters.getD cid []).getD 1 0,
    participantCount := group.length,
    participants := group.map (fun r => ⟨r.pid, cname, r.x, r.y⟩),
    statements := (List.range sids.length).map
      (fun j => mkStatementOut group cname j (sids.getD j 0)) }

/-- `build_centers(df)`: `df.groupby("cluster_id")` yields one nonempty
group per distinct cluster id, keys ascending, and the comprehension maps
each to a center entry. -/
def buildCenters (clusterCenters : List Pt) (sids : List Int) (rows : List MergedRow) :
    List CenterOut :=
  (dedupSorted (rows.map MergedRow.cluster)).map (fun cid =>
    mkCenterOut clusterCenters sids cid (rows.filter (fun r => decide (r.cluster = cid))))

/-- The `raw_vote_matrix` local of `run_clustering`. -/
def rawMatrixOf (votes : List VRec) (skipRemap : Bool) : VoteMatrix :=
  generateRawMatrix ((normalizedVotes skipRemap votes).map toVoteRec)

/-- The `filtered_vote_matrix` local of `run_clustering`. -/
def filteredMatrixOf (votes : List VRec) (skipRemap : Bool) : VoteMatrix :=
  filterMatrix DEFAULT_MIN_USER_VOTE_THRESHOLD (rawMatrixOf votes skipRemap)

/-- The scaled `projected_data` of `run_clustering`, as points: one (x, y)
per retained participant, positionally aligned with the filtered rows. -/
def pointsOf (votes : List VRec) (skipRemap : Bool) : List Pt :=
  (scaleProjectedData (runPca (filteredMatrixOf votes skipRemap))
      (filteredMatrixOf votes skipRemap)).map (fun p => [p.1, p.2])

/-- The `init_centers` expression of `run_clustering`: an empty or absent
reference list is falsy in Python and passes `None` down. -/
def initRefOf (referenceClusterCenters : Option (List (ℚ × ℚ))) : Option (List Pt) :=
  match referenceClusterCenters with
  | some l => if l.isEmpty then none else some (l.map (fun c => [c.1, c.2]))
  | none => none

/-- The `(cluster_labels, cluster_centers)` pair of `run_clustering`: the
fixed-count branch when `specific_cluster_count` is truthy (`None` and `0`
are both falsy in Python), the optimal-k search otherwise. -/
def labelsCentersOf (votes : List VRec) (referenceClusterCenters : Option (List (ℚ × ℚ)))
    (specificClusterCount : Option Nat) (skipRemap : Bool) : List Nat × List Pt :=
  if (specificClusterCount.getD 0) ≠ 0 then
    runKmeans (pointsOf votes skipRemap) (specificClusterCount.getD 0)
      (initRefOf referenceClusterCenters)
  else
    (findOptimalK (pointsOf votes skipRemap) DEFAULT_MAX_CLUSTERS
      (initRefOf referenceClusterCenters)).2.2

/-- The rows of `merged_df` (`projected_data.assign(cluster_id=...)` joined
with the filtered matrix): one row per retained participant carrying the
coordinates, the cluster label and the vote cells. -/
def mergedRowsOf (votes : List VRec) (referenceClusterCenters : Option (List (ℚ × ℚ)))
    (specificClusterCount : Option Nat) (skipRemap : Bool) : List MergedRow :=
  (List.range (filteredMatrixOf votes skipRemap).rows.length).map (fun i =>
    let pr := (filteredMatrixOf votes skipRemap).rows.getD i (0, [])
    let pt := (pointsOf votes skipRemap).getD i []
    { pid := pr.1, x := pt.getD 0 0, y := pt.getD 1 0,
      cluster := (labelsCentersOf votes referenceClusterCenters
        specificClusterCount skipRemap).1.getD i 0,
      cells := pr.2 : MergedRow })

/-- `run_clustering`.  The `statement_boost` parameter is accepted and never
read, as in the source. -/
def runClustering (votes : List VRec) (referenceClusterCenters : Option (List (ℚ × ℚ)))
    (_statementBoost : Option (Int × ℚ) := none)
    (specificClusterCount : Option Nat := none)
    (skipRemap : Bool := false) : ClusteringResult :=
  { participantCount := (rawMatrixOf votes skipRemap).rows.length,
    participantsClustered := (filteredMatrixOf votes skipRemap).rows.length,
    voteCount := matrixVoteCount (rawMatrixOf votes skipRemap),
    statementCount := (rawMatrixOf votes skipRemap).sids.length,
    lastVoteAt := some (lastVoteTimestamp (normalizedVotes skipRemap votes)),
    statementMetrics := (filteredMatrixOf votes skipRemap).sids.map (fun sid => ⟨sid, 0, 0, 0⟩),
    centers := buildCenters
      (labelsCentersOf votes referenceClusterCenters specificClusterCount skipRemap).2
      (filteredMatrixOf votes skipRemap).sids
      (mergedRowsOf votes referenceClusterCenters specificClusterCount skipRemap) }

/-! Claim C5: the empty vote list. -/

/-- C5 (amended): on the empty vote list `run_clustering` returns the
well-defined trivial result — every count is 0 and `centers` is empty —
but `last_vote_at` is the epoch-zero timestamp
(`datetime.fromtimestamp(0 / 1000)`), not null: the code never stores a
null there. -/
theorem run_clustering_empty_votes :
    runClustering [] none none none false
      = { participantCount := 0, participantsClustered := 0, voteCount := 0,
          statementCount := 0, lastVoteAt := some 0, statementMetrics := [],
          centers := [] } := by
  with_unfolding_all decide

/-- Counterexample for C5 as stated: on the empty vote list the returned
`last_vote_at` is the (non-null) epoch-zero timestamp, where the claim
demands null. -/
theorem run_clustering_empty_votes_cex :
    (runClustering [] none none none false).lastVoteAt = some 0
    ∧ (runClustering [] none none none false).lastVoteAt ≠ none := by
  with_unfolding_all decide

/-! Claims C7 and C9: the vote-record normalizer. -/

lemma pyInsert_not_mem {α β : Type} [DecidableEq α] (d : List (α × β)) (k : α) (v : β)
    (h : k ∉ d.map Prod.fst) : pyInsert d k v = d ++ [(k, v)] := by
  unfold pyInsert
  rw [if_neg]
  intro hany
  obtain ⟨p, hp, hpk⟩ := List.any_eq_true.mp hany
  have hk : p.1 = k := of_decide_eq_true hpk
  exact h (hk ▸ List.mem_map_of_mem Prod.fst hp)

lemma foldl_pyInsert_append {α β : Type} [DecidableEq α] :
    ∀ (l acc : List (α × β)), ((acc ++ l).map Prod.fst).Nodup →
      l.foldl (fun d kv => pyInsert d kv.1 kv.2) acc = acc ++ l := by
  intro l
  induction l with
  | nil =>
    intro acc h
    simp
  | cons kv t ih =>
    intro acc h
    rw [List.foldl_cons]
    have hnotmem : kv.1 ∉ acc.map Prod.fst := by
      rw [List.map_append, List.nodup_append] at h
      intro hmem
      exact h.2.2 hmem (by simp)
    rw [pyInsert_not_mem acc kv.1 kv.2 hnotmem]
    have hkv : acc ++ [(kv.1, kv.2)] = acc ++ [kv] := by simp
    rw [hkv, ih (acc ++ [kv]) (by simpa using h)]
    simp

/-- A dict comprehension whose produced keys are pairwise distinct keeps
the entry list as it stands. -/
lemma dictComp_eq_self {α β : Type} [DecidableEq α] (l : List (α × β))
    (h : (l.map Prod.fst).Nodup) : dictComp l = l := by
  unfold dictComp
  have hgo := foldl_pyInsert_append l [] (by simpa using h)
  simpa using hgo

/-- When rekeying produces no collision inside any record,
`remap_vote_values` acts entrywise: each field is renamed through the key
mapping and the value mapping touches exactly the (post-rename) `"vote"`
field. -/
lemma remapVoteValues_eq_map (votes : List VRec) (vm : List (Int × Int))
    (km : List (String × String))
    (h : ∀ rec ∈ votes, (rec.map (fun kv => mappedKey km kv.1)).Nodup) :
    remapVoteValues votes vm km = votes.map (fun rec => rec.map (fun kv =>
      (mappedKey km kv.1,
       if mappedKey km kv.1 = "vote" then (alistGet vm kv.2).getD kv.2 else kv.2))) := by
  unfold remapVoteValues
  rw [List.map_map]
  apply List.map_congr_left
  intro rec hrec
  simp only [Function.comp]
  have hk1 : ((rec.map (fun kv => (mappedKey km kv.1, kv.2))).map Prod.fst).Nodup := by
    rw [List.map_map]
    exact h rec hrec
  rw [dictComp_eq_self _ hk1, List.map_map]
  have hk2 : ((rec.map ((fun kv : String × Int =>
      (kv.1, if kv.1 = "vote" then (alistGet vm kv.2).getD kv.2 else kv.2)) ∘
        (fun kv : String × Int => (mappedKey km kv.1, kv.2)))).map Prod.fst).Nodup := by
    rw [List.map_map]
    exact h rec hrec
  rw [dictComp_eq_self _ hk2]
  rfl

/-- C7 (amended): provided no two fields of a record collide after key
renaming, `remap_vote_values` renames each key through the key mapping,
keeps unmapped keys, applies the value mapping to the value of the
(post-rename) `"vote"` field only — keeping unmapped values and all other
fields' values — and `run_clustering` skips the remapping exactly when
`skip_remap` is set.  (When renamed keys collide, the later entry of the
record wins and the earlier one is dropped — see the counterexample.) -/
theorem remap_vote_values_normalizer (votes : List VRec) (vm : List (Int × Int))
    (km : List (String × String))
    (h : ∀ rec ∈ votes, (rec.map (fun kv => mappedKey km kv.1)).Nodup) :
    remapVoteValues votes vm km = votes.map (fun rec => rec.map (fun kv =>
      (mappedKey km kv.1,
       if mappedKey km kv.1 = "vote" then (alistGet vm kv.2).getD kv.2 else kv.2)))
    ∧ normalizedVotes true votes = votes
    ∧ normalizedVotes false votes
        = remapVoteValues votes DEMDIS_VOTE_VALUE_MAPPING DEMDIS_VOTE_KEY_MAPPING :=
  ⟨remapVoteValues_eq_map votes vm km h, rfl, rfl⟩

/-- Counterexample for C7 as stated: renaming `"a"` to `"b"` in a record
that already has a `"b"` field drops the renamed entry (the dict
comprehension overwrites it), so the output record does not contain the
renamed key with its original value 1. -/
theorem remap_vote_values_key_collision_cex :
    remapVoteValues [[("a", (1 : Int)), ("b", 2)]] [] [("a", "b")] = [[("b", (2 : Int))]]
    ∧ ("b", (1 : Int)) ∉ (remapVoteValues [[("a", (1 : Int)), ("b", 2)]] [] [("a", "b")]).headD [] := by
  with_unfolding_all decide

/-- Witness for C7 (amended) on the DemDis mappings. -/
theorem remap_vote_values_normalizer_witness :
    (∀ rec ∈ [[("voted_by_participant_id", (3 : Int)), ("value", 10), ("modified", 4)]],
        (rec.map (fun kv => mappedKey DEMDIS_VOTE_KEY_MAPPING kv.1)).Nodup)
    ∧ (remapVoteValues [[("voted_by_participant_id", (3 : Int)), ("value", 10), ("modified", 4)]]
          DEMDIS_VOTE_VALUE_MAPPING DEMDIS_VOTE_KEY_MAPPING
        = [[("voted_by_participant_id", (3 : Int)), ("value", 10), ("modified", 4)]].map
            (fun rec => rec.map (fun kv =>
              (mappedKey DEMDIS_VOTE_KEY_MAPPING kv.1,
               if mappedKey DEMDIS_VOTE_KEY_MAPPING kv.1 = "vote"
               then (alistGet DEMDIS_VOTE_VALUE_MAPPING kv.2).getD kv.2 else kv.2)))
        ∧ normalizedVotes true
            [[("voted_by_participant_id", (3 : Int)), ("value", 10), ("modified", 4)]]
          = [[("voted_by_participant_id", (3 : Int)), ("value", 10), ("modified", 4)]]
        ∧ normalizedVotes false
            [[("voted_by_participant_id", (3 : Int)), ("value", 10), ("modified", 4)]]
          = remapVoteValues [[("voted_by_participant_id", (3 : Int)), ("value", 10), ("modified", 4)]]
              DEMDIS_VOTE_VALUE_MAPPING DEMDIS_VOTE_KEY_MAPPING) :=
  ⟨by with_unfolding_all decide,
   remap_vote_values_normalizer
     [[("voted_by_participant_id", (3 : Int)), ("value", 10), ("modified", 4)]]
     DEMDIS_VOTE_VALUE_MAPPING DEMDIS_VOTE_KEY_MAPPING (by with_unfolding_all decide)⟩

lemma alistGet_mem_snd {α β : Type} [DecidableEq α] :
    ∀ (m : List (α × β)) (a : α) (b : β), alistGet m a = some b → b ∈ m.map Prod.snd := by
  intro m
  induction m with
  | nil =>
    intro a b h
    simp [alistGet] at h
  | cons p t ih =>
    intro a b h
    simp only [alistGet] at h
    by_cases hpa : p.1 = a
    · rw [if_pos hpa] at h
      injection h with hb
      rw [List.map_cons]
      exact hb ▸ List.mem_cons_self _ _
    · rw [if_neg hpa] at h
      rw [List.map_cons]
      exact List.mem_cons_of_mem _ (ih a b h)

lemma alistGet_swap {α β : Type} [DecidableEq α] [DecidableEq β] :
    ∀ (m : List (α × β)) (a : α) (b : β), (m.map Prod.fst).Nodup → (m.map Prod.snd).Nodup →
      alistGet m a = some b → alistGet (m.map Prod.swap) b = some a := by
  intro m
  induction m with
  | nil =>
    intro a b _ _ hget
    simp [alistGet] at hget
  | cons p t ih =>
    intro a b h1 h2 hget
    rw [List.map_cons, List.nodup_cons] at h1 h2
    simp only [alistGet] at hget
    by_cases hpa : p.1 = a
    · rw [if_pos hpa] at hget
      injection hget with hb
      rw [List.map_cons]
      simp only [alistGet]
      rw [if_pos (by simp [hb])]
      simp [hpa]
    · rw [if_neg hpa] at hget
      have hbt : b ∈ t.map Prod.snd := alistGet_mem_snd t a b hget
      have hpb : p.2 ≠ b := fun he => h2.1 (he ▸ hbt)
      rw [List.map_cons]
      simp only [alistGet]
      rw [if_neg (by simpa using hpb)]
      exact ih a b h1.2 h2.2 hget

/-- An injective mapping table and its swapped-pairs inverse relate lookups
both ways. -/
lemma alistGet_swap_iff (vm : List (Int × Int)) (hnd1 : (vm.map Prod.fst).Nodup)
    (hnd2 : (vm.map Prod.snd).Nodup) (a b : Int) :
    alistGet vm a = some b ↔ alistGet (vm.map Prod.swap) b = some a := by
  constructor
  · exact alistGet_swap vm a b hnd1 hnd2
  · intro h
    have hback := alistGet_swap (vm.map Prod.swap) b a
      (by simpa [List.map_map, Function.comp] using hnd2)
      (by simpa [List.map_map, Function.comp] using hnd1) h
    simpa [List.map_map, Function.comp, Prod.swap_swap] using hback

/-- C9 (amended): remapping vote values forward with an invertible table
`vm` (distinct keys, distinct values, inverse table = swapped pairs) and
back with its inverse restores every record, provided every occurring
`"vote"` value is either in the table's domain or outside its range (a
value merely in the range is pulled back to its preimage on the second
pass — see the counterexample). -/
theorem remap_vote_values_roundtrip (votes : List VRec) (vm vmInv : List (Int × Int))
    (hkeys : ∀ rec ∈ votes, (rec.map Prod.fst).Nodup)
    (hswap : vmInv = vm.map Prod.swap)
    (hnd1 : (vm.map Prod.fst).Nodup)
    (hnd2 : (vm.map Prod.snd).Nodup)
    (hdom : ∀ rec ∈ votes, ∀ kv ∈ rec, kv.1 = "vote" →
      ((alistGet vm kv.2).isSome = true ∨ alistGet vmInv kv.2 = none)) :
    remapVoteValues (remapVoteValues votes vm []) vmInv [] = votes := by
  have hkeys2 : ∀ rec ∈ votes, (rec.map (fun kv => mappedKey [] kv.1)).Nodup :=
    fun rec hr => hkeys rec hr
  rw [remapVoteValues_eq_map votes vm [] hkeys2]
  have hkeys3 : ∀ rec ∈ votes.map (fun rec => rec.map (fun kv =>
      (mappedKey [] kv.1,
       if mappedKey [] kv.1 = "vote" then (alistGet vm kv.2).getD kv.2 else kv.2))),
      (rec.map (fun kv => mappedKey [] kv.1)).Nodup := by
    intro rec hrec
    obtain ⟨rec0, hrec0, rfl⟩ := List.mem_map.mp hrec
    rw [List.map_map]
    exact hkeys rec0 hrec0
  rw [remapVoteValues_eq_map _ vmInv [] hkeys3, List.map_map]
  conv_rhs => rw [← List.map_id votes]
  apply List.map_congr_left
  intro rec hrec
  simp only [Function.comp, id, List.map_map]
  conv_rhs => rw [← List.map_id rec]
  apply List.map_congr_left
  intro kv hkv
  rcases kv with ⟨k, v⟩
  simp only [Function.comp, id, mappedKey, alistGet, Option.getD_none]
  by_cases hk : k = "vote"
  · subst hk
    rw [if_pos rfl, if_pos rfl]
    cases halist : alistGet vm v with
    | some b =>
      have hb := (alistGet_swap_iff vm hnd1 hnd2 v b).mp halist
      rw [← hswap] at hb
      simp only [Option.getD_some]
      rw [hb]
      rfl
    | none =>
      rcases hdom rec hrec ("vote", v) hkv rfl with hs | hn
      · have hs2 : (alistGet vm v).isSome = true := hs
        rw [halist] at hs2
        simp at hs2
      · have hn2 : alistGet vmInv v = none := hn
        simp only [Option.getD_none]
        rw [hn2]
        rfl
  · rw [if_neg hk, if_neg hk]

/-- Counterexample for C9 as stated: with the invertible table `{1 ↦ 2}`
(inverse `{2 ↦ 1}`), a record whose vote value 2 sits in the table's range
but not its domain passes forward unchanged and is then pulled back to 1,
so the round trip does not restore the original value. -/
theorem remap_vote_values_roundtrip_cex :
    remapVoteValues (remapVoteValues [[("vote", (2 : Int))]] [((1 : Int), (2 : Int))] [])
        [((2 : Int), (1 : Int))] [] = [[("vote", (1 : Int))]]
    ∧ [[("vote", (1 : Int))]] ≠ [[("vote", (2 : Int))]]
    ∧ [((2 : Int), (1 : Int))] = [((1 : Int), (2 : Int))].map Prod.swap := by
  with_unfolding_all decide

/-- Witness for C9 (amended) on the DemDis value table. -/
theorem remap_vote_values_roundtrip_witness :
    (∀ rec ∈ [[("vote", (10 : Int)), ("modified", 3)]], (rec.map Prod.fst).Nodup)
    ∧ DEMDIS_VOTE_VALUE_MAPPING.map Prod.swap = DEMDIS_VOTE_VALUE_MAPPING.map Prod.swap
    ∧ (DEMDIS_VOTE_VALUE_MAPPING.map Prod.fst).Nodup
    ∧ (DEMDIS_VOTE_VALUE_MAPPING.map Prod.snd).Nodup
    ∧ (∀ rec ∈ [[("vote", (10 : Int)), ("modified", 3)]], ∀ kv ∈ rec, kv.1 = "vote" →
        ((alistGet DEMDIS_VOTE_VALUE_MAPPING kv.2).isSome = true
          ∨ alistGet (DEMDIS_VOTE_VALUE_MAPPING.map Prod.swap) kv.2 = none))
    ∧ remapVoteValues
        (remapVoteValues [[("vote", (10 : Int)), ("modified", 3)]] DEMDIS_VOTE_VALUE_MAPPING [])
        (DEMDIS_VOTE_VALUE_MAPPING.map Prod.swap) []
      = [[("vote", (10 : Int)), ("modified", 3)]] :=
  ⟨by with_unfolding_all decide, rfl, by with_unfolding_all decide, by with_unfolding_all decide,
   by with_unfolding_all decide,
   remap_vote_values_roundtrip [[("vote", (10 : Int)), ("modified", 3)]]
     DEMDIS_VOTE_VALUE_MAPPING (DEMDIS_VOTE_VALUE_MAPPING.map Prod.swap)
     (by with_unfolding_all decide) rfl (by with_unfolding_all decide)
     (by with_unfolding_all decide) (by with_unfolding_all decide)⟩

/-! Claims C3, C8 and C10: the result assembler. -/

lemma mem_dedupSorted {α : Type} [DecidableEq α] [LinearOrder α] (l : List α) (a : α) :
    a ∈ dedupSorted l ↔ a ∈ l := by
  unfold dedupSorted
  rw [(List.perm_insertionSort (· ≤ ·) l.dedup).mem_iff]
  exact List.mem_dedup

lemma nodup_dedupSorted {α : Type} [DecidableEq α] [LinearOrder α] (l : List α) :
    (dedupSorted l).Nodup := by
  unfold dedupSorted
  exact ((List.perm_insertionSort (· ≤ ·) l.dedup).nodup_iff).mpr (List.nodup_dedup l)

lemma length_dedupSorted {α : Type} [DecidableEq α] [LinearOrder α] (l : List α) :
    (dedupSorted l).length = l.dedup.length :=
  (List.perm_insertionSort (· ≤ ·) l.dedup).length_eq

lemma list_sum_map_add {β : Type} (l : List β) (f g : β → Nat) :
    (l.map (fun b => f b + g b)).sum = (l.map f).sum + (l.map g).sum := by
  induction l with
  | nil => rfl
  | cons a t ih =>
    simp only [List.map_cons, List.sum_cons, ih]
    omega

lemma sum_map_ite_one {β : Type} [DecidableEq β] :
    ∀ (ids : List β) (c : β), ids.Nodup → c ∈ ids →
      (ids.map (fun b => if c = b then (1 : Nat) else 0)).sum = 1 := by
  intro ids
  induction ids with
  | nil =>
    intro c _ hc
    simp at hc
  | cons a t ih =>
    intro c hnd hc
    rw [List.nodup_cons] at hnd
    rw [List.map_cons, List.sum_cons]
    by_cases hca : c = a
    · rw [if_pos hca]
      have hz : (t.map (fun b => if c = b then (1 : Nat) else 0)).sum = 0 := by
        apply List.sum_eq_zero
        intro x hx
        obtain ⟨b, hb, rfl⟩ := List.mem_map.mp hx
        rw [if_neg]
        intro hcb
        apply hnd.1
        rw [hca] at hcb
        rw [hcb]
        exact hb
      rw [hz]
    · rw [if_neg hca]
      have hct : c ∈ t := by
        cases List.mem_cons.mp hc with
        | inl h => exact absurd h hca
        | inr h => exact h
      rw [ih c hnd.2 hct]

/-- Summing the sizes of the per-value filter groups of a list over the
distinct values recovers the length: groups partition the list. -/
lemma length_eq_sum_filter {α β : Type} [DecidableEq β] (f : α → β) :
    ∀ (l : List α) (ids : List β), ids.Nodup → (∀ a ∈ l, f a ∈ ids) →
      (ids.map (fun b => (l.filter (fun a => decide (f a = b))).length)).sum = l.length := by
  intro l
  induction l with
  | nil =>
    intro ids _ _
    simp
  | cons a t ih =>
    intro ids hnd hmem
    have hstep : ∀ b : β, ((a :: t).filter (fun x => decide (f x = b))).length
        = (if f a = b then 1 else 0) + (t.filter (fun x => decide (f x = b))).length := by
      intro b
      by_cases hab : f a = b
      · rw [List.filter_cons_of_pos (by simpa using hab), if_pos hab, List.length_cons]
        omega
      · rw [List.filter_cons_of_neg (by simpa using hab), if_neg hab]
        omega
    calc (ids.map (fun b => ((a :: t).filter (fun x => decide (f x = b))).length)).sum
        = (ids.map (fun b => (if f a = b then 1 else 0)
            + (t.filter (fun x => decide (f x = b))).length)).sum := by
          exact congrArg List.sum (List.map_congr_left (fun b _ => hstep b))
      _ = (ids.map (fun b => if f a = b then (1 : Nat) else 0)).sum
            + (ids.map (fun b => (t.filter (fun x => decide (f x = b))).length)).sum :=
          list_sum_map_add ids _ _
      _ = 1 + t.length := by
          rw [ih ids hnd (fun x hx => hmem x (List.mem_cons_of_mem a hx)),
            sum_map_ite_one ids (f a) hnd (hmem a (List.mem_cons_self a t))]
      _ = (a :: t).length := by
          rw [List.length_cons]
          omega

/-- A well-formed vote cell: unset, agree, disagree or skip. -/
def wfCell (c : Option Int) : Prop :=
  c = none ∨ c = some 1 ∨ c = some (-1) ∨ c = some 0

lemma wfCell_getD (cells : List (Option Int)) (j : Nat)
    (h : ∀ c ∈ cells, wfCell c) : wfCell (cells.getD j none) := by
  by_cases hj : j < cells.length
  · rw [List.getD_eq_getElem _ _ hj]
    exact h _ (List.getElem_mem hj)
  · rw [List.getD_eq_default _ _ (by omega)]
    exact Or.inl rfl

lemma counts_sum_group (j : Nat) :
    ∀ (group : List MergedRow), (∀ r ∈ group, wfCell (cellAt r j)) →
      group.countP (fun r => decide (cellAt r j = some 1))
        + group.countP (fun r => decide (cellAt r j = some (-1)))
        + group.countP (fun r => decide (cellAt r j = some 0))
        + group.countP (fun r => decide (cellAt r j = none)) = group.length := by
  intro group
  induction group with
  | nil =>
    intro _
    rfl
  | cons r g ih =>
    intro h
    have hr := h r (List.mem_cons_self r g)
    have hg := ih (fun x hx => h x (List.mem_cons_of_mem r hx))
    simp only [List.countP_cons, List.length_cons]
    rcases hr with h1 | h1 | h1 | h1 <;> simp [h1] <;> omega

lemma mem_buildCenters {ccs : List Pt} {sids : List Int} {rows : List MergedRow}
    {c : CenterOut} (hc : c ∈ buildCenters ccs sids rows) :
    ∃ cid, cid ∈ rows.map MergedRow.cluster
      ∧ c = mkCenterOut ccs sids cid (rows.filter (fun r => decide (r.cluster = cid))) := by
  unfold buildCenters at hc
  obtain ⟨cid, hcid, rfl⟩ := List.mem_map.mp hc
  exact ⟨cid, (mem_dedupSorted _ _).mp hcid, rfl⟩

lemma group_nonempty {rows : List MergedRow} {cid : Nat}
    (h : cid ∈ rows.map MergedRow.cluster) :
    0 < (rows.filter (fun r => decide (r.cluster = cid))).length := by
  obtain ⟨r, hr, hrc⟩ := List.mem_map.mp h
  apply List.length_pos.mpr
  intro hnil
  have hmem : r ∈ rows.filter (fun r => decide (r.cluster = cid)) :=
    List.mem_filter.mpr ⟨hr, by simpa using hrc⟩
  rw [hnil] at hmem
  simp at hmem

lemma buildCenters_participant_sum (ccs : List Pt) (sids : List Int)
    (rows : List MergedRow) :
    ((buildCenters ccs sids rows).map CenterOut.participantCount).sum = rows.length := by
  unfold buildCenters
  rw [List.map_map]
  have hcomp : (CenterOut.participantCount ∘ fun cid =>
      mkCenterOut ccs sids cid (rows.filter (fun r => decide (r.cluster = cid))))
      = fun cid => (rows.filter (fun r => decide (r.cluster = cid))).length := rfl
  rw [hcomp]
  exact length_eq_sum_filter MergedRow.cluster rows (dedupSorted (rows.map MergedRow.cluster))
    (nodup_dedupSorted _) (fun r hr => (mem_dedupSorted _ _).mpr (List.mem_map_of_mem _ hr))

lemma buildCenters_statement_counts (ccs : List Pt) (sids : List Int)
    (rows : List MergedRow) (hwf : ∀ r ∈ rows, ∀ c ∈ r.cells, wfCell c) :
    ∀ c ∈ buildCenters ccs sids rows, ∀ s ∈ c.statements,
      s.agreementCount + s.disagreementCount + s.skipCount + s.unseenCount
        = c.participantCount := by
  intro c hc s hs
  obtain ⟨cid, hcid, rfl⟩ := mem_buildCenters hc
  obtain ⟨j, hj, rfl⟩ := List.mem_map.mp hs
  exact counts_sum_group j _
    (fun r hr => wfCell_getD r.cells j (hwf r (List.mem_of_mem_filter hr)))

/-- The canonical vote-value condition on a (normalized) record. -/
abbrev canonicalVote (rec : VRec) : Prop :=
  getField rec "vote" = 1 ∨ getField rec "vote" = -1 ∨ getField rec "vote" = 0

lemma lastVoteFor_wf (votes : List VoteRec) (p s : Int)
    (h : ∀ v ∈ votes, v.vote = 1 ∨ v.vote = -1 ∨ v.vote = 0) :
    wfCell (lastVoteFor votes p s) := by
  unfold lastVoteFor
  cases hlast : (votes.filter (fun v => decide (v.pid = p) && decide (v.sid = s))).getLast? with
  | none => exact Or.inl rfl
  | some v =>
    have hv : v ∈ votes := List.mem_of_mem_filter (List.mem_of_mem_getLast? hlast)
    rcases h v hv with h1 | h1 | h1
    · right; left; simp [h1]
    · right; right; left; simp [h1]
    · right; right; right; simp [h1]

lemma generateRawMatrix_wf (votes : List VoteRec)
    (h : ∀ v ∈ votes, v.vote = 1 ∨ v.vote = -1 ∨ v.vote = 0) :
    ∀ row ∈ (generateRawMatrix votes).rows, ∀ c ∈ row.2, wfCell c := by
  intro row hrow c hcell
  unfold generateRawMatrix at hrow
  obtain ⟨p, hp, rfl⟩ := List.mem_map.mp hrow
  obtain ⟨s, hsm, rfl⟩ := List.mem_map.mp hcell
  exact lastVoteFor_wf votes p s h

lemma mergedRowsOf_length (votes : List VRec) (refC : Option (List (ℚ × ℚ)))
    (k : Option Nat) (skipRemap : Bool) :
    (mergedRowsOf votes refC k skipRemap).length
      = (filteredMatrixOf votes skipRemap).rows.length := by
  unfold mergedRowsOf
  rw [List.length_map, List.length_range]

lemma mergedRowsOf_cells_wf (votes : List VRec) (refC : Option (List (ℚ × ℚ)))
    (k : Option Nat) (skipRemap : Bool)
    (h : ∀ rec ∈ normalizedVotes skipRemap votes, canonicalVote rec) :
    ∀ r ∈ mergedRowsOf votes refC k skipRemap, ∀ c ∈ r.cells, wfCell c := by
  intro r hr c hcell
  unfold mergedRowsOf at hr
  obtain ⟨i, hi, rfl⟩ := List.mem_map.mp hr
  have him : i < (filteredMatrixOf votes skipRemap).rows.length := List.mem_range.mp hi
  have hrow : (filteredMatrixOf votes skipRemap).rows.getD i (0, [])
      ∈ (filteredMatrixOf votes skipRemap).rows := by
    rw [List.getD_eq_getElem _ _ him]
    exact List.getElem_mem him
  have hrawrow : (filteredMatrixOf votes skipRemap).rows.getD i (0, [])
      ∈ (rawMatrixOf votes skipRemap).rows :=
    List.mem_of_mem_filter hrow
  have hv : ∀ v ∈ (normalizedVotes skipRemap votes).map toVoteRec,
      v.vote = 1 ∨ v.vote = -1 ∨ v.vote = 0 := by
    intro v hvm
    obtain ⟨rec, hrec, rfl⟩ := List.mem_map.mp hvm
    exact h rec hrec
  exact generateRawMatrix_wf _ hv _ hrawrow c hcell

/-- C3: for every result of `run_clustering` (on records whose normalized
vote values are canonical), the center participant counts sum to
`participants_clustered`, and within every center each statement's four
tallies (agree, disagree, skip, unseen) sum to that center's participant
count. -/
theorem run_clustering_center_invariants (votes : List VRec)
    (refC : Option (List (ℚ × ℚ))) (boost : Option (Int × ℚ)) (k : Option Nat)
    (skipRemap : Bool)
    (h : ∀ rec ∈ normalizedVotes skipRemap votes, canonicalVote rec) :
    ((runClustering votes refC boost k skipRemap).centers.map
        CenterOut.participantCount).sum
      = (runClustering votes refC boost k skipRemap).participantsClustered
    ∧ ∀ c ∈ (runClustering votes refC boost k skipRemap).centers, ∀ s ∈ c.statements,
        s.agreementCount + s.disagreementCount + s.skipCount + s.unseenCount
          = c.participantCount := by
  constructor
  · show ((buildCenters _ _ (mergedRowsOf votes refC k skipRemap)).map
        CenterOut.participantCount).sum
      = (filteredMatrixOf votes skipRemap).rows.length
    rw [buildCenters_participant_sum]
    exact mergedRowsOf_length votes refC k skipRemap
  · intro c hc s hs
    exact buildCenters_statement_counts _ _ _
      (mergedRowsOf_cells_wf votes refC k skipRemap h) c hc s hs

/-- Witness for C3: one participant voting agree on seven statements,
canonical records, fixed cluster count 2 with reference centers. -/
theorem run_clustering_center_invariants_witness :
    (∀ rec ∈ normalizedVotes true
        [[("participant_id", (1 : Int)), ("statement_id", 1), ("vote", 1), ("modified", 5)],
         [("participant_id", 1), ("statement_id", 2), ("vote", 1), ("modified", 5)],
         [("participant_id", 1), ("statement_id", 3), ("vote", 1), ("modified", 5)],
         [("participant_id", 1), ("statement_id", 4), ("vote", 1), ("modified", 5)],
         [("participant_id", 1), ("statement_id", 5), ("vote", 1), ("modified", 5)],
         [("participant_id", 1), ("statement_id", 6), ("vote", 1), ("modified", 5)],
         [("participant_id", 1), ("statement_id", 7), ("vote", 1), ("modified", 5)]],
      canonicalVote rec)
    ∧ (((runClustering
          [[("participant_id", (1 : Int)), ("statement_id", 1), ("vote", 1), ("modified", 5)],
           [("participant_id", 1), ("statement_id", 2), ("vote", 1), ("modified", 5)],
           [("participant_id", 1), ("statement_id", 3), ("vote", 1), ("modified", 5)],
           [("participant_id", 1), ("statement_id", 4), ("vote", 1), ("modified", 5)],
           [("participant_id", 1), ("statement_id", 5), ("vote", 1), ("modified", 5)],
           [("participant_id", 1), ("statement_id", 6), ("vote", 1), ("modified", 5)],
           [("participant_id", 1), ("statement_id", 7), ("vote", 1), ("modified", 5)]]
          (some [(0, 0), (1, 1)]) none (some 2) true).centers.map
          CenterOut.participantCount).sum
        = (runClustering
          [[("participant_id", (1 : Int)), ("statement_id", 1), ("vote", 1), ("modified", 5)],
           [("participant_id", 1), ("statement_id", 2), ("vote", 1), ("modified", 5)],
           [("participant_id", 1), ("statement_id", 3), ("vote", 1), ("modified", 5)],
           [("participant_id", 1), ("statement_id", 4), ("vote", 1), ("modified", 5)],
           [("participant_id", 1), ("statement_id", 5), ("vote", 1), ("modified", 5)],
           [("participant_id", 1), ("statement_id", 6), ("vote", 1), ("modified", 5)],
           [("participant_id", 1), ("statement_id", 7), ("vote", 1), ("modified", 5)]]
          (some [(0, 0), (1, 1)]) none (some 2) true).participantsClustered
      ∧ ∀ c ∈ (runClustering
          [[("participant_id", (1 : Int)), ("statement_id", 1), ("vote", 1), ("modified", 5)],
           [("participant_id", 1), ("statement_id", 2), ("vote", 1), ("modified", 5)],
           [("participant_id", 1), ("statement_id", 3), ("vote", 1), ("modified", 5)],
           [("participant_id", 1), ("statement_id", 4), ("vote", 1), ("modified", 5)],
           [("participant_id", 1), ("statement_id", 5), ("vote", 1), ("modified", 5)],
           [("participant_id", 1), ("statement_id", 6), ("vote", 1), ("modified", 5)],
           [("participant_id", 1), ("statement_id", 7), ("vote", 1), ("modified", 5)]]
          (some [(0, 0), (1, 1)]) none (some 2) true).centers, ∀ s ∈ c.statements,
          s.agreementCount + s.disagreementCount + s.skipCount + s.unseenCount
            = c.participantCount) :=
  ⟨by with_unfolding_all decide,
   run_clustering_center_invariants
     [[("participant_id", (1 : Int)), ("statement_id", 1), ("vote", 1), ("modified", 5)],
      [("participant_id", 1), ("statement_id", 2), ("vote", 1), ("modified", 5)],
      [("participant_id", 1), ("statement_id", 3), ("vote", 1), ("modified", 5)],
      [("participant_id", 1), ("statement_id", 4), ("vote", 1), ("modified", 5)],
      [("participant_id", 1), ("statement_id", 5), ("vote", 1), ("modified", 5)],
      [("participant_id", 1), ("statement_id", 6), ("vote", 1), ("modified", 5)],
      [("participant_id", 1), ("statement_id", 7), ("vote", 1), ("modified", 5)]]
     (some [(0, 0), (1, 1)]) none (some 2) true (by with_unfolding_all decide)⟩

/-- C8: every statement entry the assembler produces sits in a cluster
entry whose `participant_count` — the denominator of
`agreement_percentage` — is nonzero: `groupby` only yields nonempty
groups, so the division is never by zero. -/
theorem build_centers_percentage_guard (ccs : List Pt) (sids : List Int)
    (rows : List MergedRow) :
    ∀ c ∈ buildCenters ccs sids rows, ∀ s ∈ c.statements,
      c.participantCount ≠ 0
      ∧ s.agreementPercentage
          = ((s.agreementCount : ℚ) / (c.participantCount : ℚ)) * 100 := by
  intro c hc s hs
  obtain ⟨cid, hcid, rfl⟩ := mem_buildCenters hc
  have hpos := group_nonempty hcid
  obtain ⟨j, hj, rfl⟩ := List.mem_map.mp hs
  constructor
  · show (rows.filter (fun r => decide (r.cluster = cid))).length ≠ 0
    omega
  · rfl

/-- Witness for C8 at a concrete one-row, one-statement input. -/
theorem build_centers_percentage_guard_witness :
    ((buildCenters [[0, 0]] [5] [⟨1, 0, 0, 0, [some 1]⟩]).getD 0
        ⟨"", 0, 0, 0, [], []⟩
      ∈ buildCenters [[0, 0]] [5] [⟨1, 0, 0, 0, [some 1]⟩])
    ∧ (((buildCenters [[0, 0]] [5] [⟨1, 0, 0, 0, [some 1]⟩]).getD 0
        ⟨"", 0, 0, 0, [], []⟩).statements.getD 0
        ⟨0, "", 0, 0, 0, 0, 0, 0, 0, 0⟩
      ∈ ((buildCenters [[0, 0]] [5] [⟨1, 0, 0, 0, [some 1]⟩]).getD 0
        ⟨"", 0, 0, 0, [], []⟩).statements)
    ∧ (((buildCenters [[0, 0]] [5] [⟨1, 0, 0, 0, [some 1]⟩]).getD 0
          ⟨"", 0, 0, 0, [], []⟩).participantCount ≠ 0
      ∧ (((buildCenters [[0, 0]] [5] [⟨1, 0, 0, 0, [some 1]⟩]).getD 0
          ⟨"", 0, 0, 0, [], []⟩).statements.getD 0
          ⟨0, "", 0, 0, 0, 0, 0, 0, 0, 0⟩).agreementPercentage
        = (((((buildCenters [[0, 0]] [5] [⟨1, 0, 0, 0, [some 1]⟩]).getD 0
          ⟨"", 0, 0, 0, [], []⟩).statements.getD 0
          ⟨0, "", 0, 0, 0, 0, 0, 0, 0, 0⟩).agreementCount : ℚ)
            / ((((buildCenters [[0, 0]] [5] [⟨1, 0, 0, 0, [some 1]⟩]).getD 0
          ⟨"", 0, 0, 0, [], []⟩).participantCount : ℚ))) * 100) :=
  ⟨by with_unfolding_all decide, by with_unfolding_all decide,
   build_centers_percentage_guard [[0, 0]] [5] [⟨1, 0, 0, 0, [some 1]⟩] _
     (by with_unfolding_all decide) _ (by with_unfolding_all decide)⟩

/-- C10: the assembler emits exactly one `centers` entry per cluster id
that received at least one participant — a cluster with no participants
yields no entry, so the list may be shorter than the cluster count `k` —
and every emitted entry has `participant_count ≥ 1`. -/
theorem build_centers_entries (ccs : List Pt) (sids : List Int) (rows : List MergedRow)
    (k : Nat) (hk : ∀ r ∈ rows, r.cluster < k) :
    (buildCenters ccs sids rows).length = (rows.map MergedRow.cluster).dedup.length
    ∧ (buildCenters ccs sids rows).length ≤ k
    ∧ (∀ c ∈ buildCenters ccs sids rows, 1 ≤ c.participantCount)
    ∧ ∀ cid, cid ∈ rows.map MergedRow.cluster →
        ∃ c ∈ buildCenters ccs sids rows,
          c.participants.map ParticipantOut.pid
            = (rows.filter (fun r => decide (r.cluster = cid))).map MergedRow.pid := by
  have hlen : (buildCenters ccs sids rows).length
      = (rows.map MergedRow.cluster).dedup.length := by
    unfold buildCenters
    rw [List.length_map, length_dedupSorted]
  refine ⟨hlen, ?_, ?_, ?_⟩
  · rw [hlen]
    have hnd := List.nodup_dedup (rows.map MergedRow.cluster)
    have hcard := List.toFinset_card_of_nodup hnd
    have hsub : (rows.map MergedRow.cluster).dedup.toFinset ⊆ Finset.range k := by
      intro x hx
      rw [Finset.mem_range]
      have hx2 : x ∈ rows.map MergedRow.cluster :=
        List.mem_dedup.mp (List.mem_toFinset.mp hx)
      obtain ⟨r, hr, rfl⟩ := List.mem_map.mp hx2
      exact hk r hr
    calc (rows.map MergedRow.cluster).dedup.length
        = (rows.map MergedRow.cluster).dedup.toFinset.card := hcard.symm
      _ ≤ (Finset.range k).card := Finset.card_le_card hsub
      _ = k := Finset.card_range k
  · intro c hc
    obtain ⟨cid, hcid, rfl⟩ := mem_buildCenters hc
    have hpos := group_nonempty hcid
    show 1 ≤ (rows.filter (fun r => decide (r.cluster = cid))).length
    omega
  · intro cid hcid
    refine ⟨mkCenterOut ccs sids cid (rows.filter (fun r => decide (r.cluster = cid))),
      ?_, ?_⟩
    · unfold buildCenters
      exact List.mem_map_of_mem _ ((mem_dedupSorted _ _).mpr hcid)
    · show ((rows.filter (fun r => decide (r.cluster = cid))).map _).map ParticipantOut.pid = _
      rw [List.map_map]
      rfl

/-- Witness for C10 with two participants in the same cluster out of
`k = 2`: one entry, fewer than `k`. -/
theorem build_centers_entries_witness :
    (∀ r ∈ [(⟨1, 0, 0, 0, [some 1]⟩ : MergedRow), ⟨2, 0, 0, 0, [some 0]⟩], r.cluster < 2)
    ∧ ((buildCenters [[0, 0], [1, 1]] [5]
          [(⟨1, 0, 0, 0, [some 1]⟩ : MergedRow), ⟨2, 0, 0, 0, [some 0]⟩]).length
        = ([(⟨1, 0, 0, 0, [some 1]⟩ : MergedRow), ⟨2, 0, 0, 0, [some 0]⟩].map
            MergedRow.cluster).dedup.length
      ∧ (buildCenters [[0, 0], [1, 1]] [5]
          [(⟨1, 0, 0, 0, [some 1]⟩ : MergedRow), ⟨2, 0, 0, 0, [some 0]⟩]).length ≤ 2
      ∧ (∀ c ∈ buildCenters [[0, 0], [1, 1]] [5]
          [(⟨1, 0, 0, 0, [some 1]⟩ : MergedRow), ⟨2, 0, 0, 0, [some 0]⟩],
          1 ≤ c.participantCount)
      ∧ ∀ cid, cid ∈ [(⟨1, 0, 0, 0, [some 1]⟩ : MergedRow), ⟨2, 0, 0, 0, [some 0]⟩].map
            MergedRow.cluster →
          ∃ c ∈ buildCenters [[0, 0], [1, 1]] [5]
            [(⟨1, 0, 0, 0, [some 1]⟩ : MergedRow), ⟨2, 0, 0, 0, [some 0]⟩],
            c.participants.map ParticipantOut.pid
              = ([(⟨1, 0, 0, 0, [some 1]⟩ : MergedRow), ⟨2, 0, 0, 0, [some 0]⟩].filter
                  (fun r => decide (r.cluster = cid))).map MergedRow.pid) :=
  ⟨by with_unfolding_all decide,
   build_centers_entries [[0, 0], [1, 1]] [5]
     [(⟨1, 0, 0, 0, [some 1]⟩ : MergedRow), ⟨2, 0, 0, 0, [some 0]⟩] 2
     (by with_unfolding_all decide)⟩

end RedDwarf
